import Mathlib

/-!
Verification development for the SimCaD synthetic calcium-movie generators
(`SimCaD.py` and `SimCaD_Hawkes.py`).

The Python sources are shallowly embedded over exact rationals.  External
library functions with no algorithmic content in the repository are passed
as explicit parameters:
* `expf` stands for the floating-point `np.exp`;
* `piq` stands for the constant `π` used by `scipy.stats.multivariate_normal`;
* `smooth` stands for `scipy.ndimage.gaussian_filter1d` (a 1-D smoothing
  kernel applied along the frame axis);
* `tape : ℕ → ℚ` is the stream of scalars produced by the shared global
  `numpy` random generator `rng`; a single position counter is threaded
  through the pipeline, one position per scalar drawn, mirroring the single
  sequential generator of the scripts.
Rejection-sampling `while True:` loops are embedded with an explicit `fuel`
argument counting outer iterations; `none` means the loop has not terminated
within `fuel` iterations (the scripts themselves have no failure path).
Python/NumPy failure modes that the scripts can hit (a failed `assert`,
`rng.integers` with `low >= high`, a slice assignment whose shapes do not
broadcast) are embedded as `none` as well.
-/

set_option maxRecDepth 8000

set_option allowUnsafeReducibility true

attribute [semireducible] Rat.add Rat.sub Rat.mul Rat.inv Rat.ofScientific

/-- Python slice-bound normalization for an axis of length `n`: a negative
bound counts from the end, and the result is clamped into `[0, n]`. -/
def pyBound (n : ℕ) (i : ℤ) : ℕ :=
  (max 0 (min (n : ℤ) (if i < 0 then (n : ℤ) + i else i))).toNat

/-- Python slice `l[a:b]` (step 1). -/
def slice1 {α : Type} (l : List α) (a b : ℤ) : List α :=
  (l.take (pyBound l.length b)).drop (pyBound l.length a)

/-- A frame (2-D array) of rationals, row major. -/
abbrev Frame := List (List ℚ)

/-- NumPy 2-D slice `m[ya:yb, xa:xb]`. -/
def slice2 (m : Frame) (ya yb xa xb : ℤ) : Frame :=
  (slice1 m ya yb).map fun row => slice1 row xa xb

/-- Pixel access `m[y][x]` with default `0`. -/
def pix (m : Frame) (y x : ℕ) : ℚ := (m.getD y []).getD x 0

/-- NumPy slice assignment `m[ya:yb, xa:xb] = src` where `src` has shape
`(sh, sw)`.  The source must be broadcastable to the destination slice shape
(equal extent or extent 1 on each axis); otherwise NumPy raises, embedded as
`none`.  `m` is rectangular of shape `(m.length, w)`. -/
def setSlice2 (m : Frame) (w : ℕ) (ya yb xa xb : ℤ) (sh sw : ℕ) (src : Frame) :
    Option Frame :=
  let h := m.length
  let y0 := pyBound h ya; let y1 := pyBound h yb
  let x0 := pyBound w xa; let x1 := pyBound w xb
  let dr := y1 - y0; let dc := x1 - x0
  if (sh = dr ∨ sh = 1) ∧ (sw = dc ∨ sw = 1) then
    some ((List.range h).map fun y => (List.range w).map fun x =>
      if y0 ≤ y ∧ y < y1 ∧ x0 ≤ x ∧ x < x1 then
        (src.getD (if sh = 1 then 0 else y - y0) []).getD
          (if sw = 1 then 0 else x - x0) 0
      else pix m y x)
  else none

/-- `shift_frame(frame2d, (dy, dx), fill)` from both scripts: build a
`full_like` array of `fill`, compute destination and source slice bounds, and
assign the source block into the destination block. -/
def shift_frame (frame2d : Frame) (dy dx : ℤ) (fill : ℚ) : Option Frame :=
  let h := frame2d.length
  let w := (frame2d.headD []).length
  let shifted : Frame := List.replicate h (List.replicate w fill)
  let y_start : ℤ := max 0 dy
  let y_end : ℤ := min (h : ℤ) ((h : ℤ) + dy)
  let x_start : ℤ := max 0 dx
  let x_end : ℤ := min (w : ℤ) ((w : ℤ) + dx)
  let src_y_start : ℤ := max 0 (-dy)
  let src_y_end : ℤ := src_y_start + (y_end - y_start)
  let src_x_start : ℤ := max 0 (-dx)
  let src_x_end : ℤ := src_x_start + (x_end - x_start)
  let sh := pyBound h src_y_end - pyBound h src_y_start
  let sw := pyBound w src_x_end - pyBound w src_x_start
  let src := slice2 frame2d src_y_start src_y_end src_x_start src_x_end
  setSlice2 shifted w y_start y_end x_start x_end sh sw src

/-! ### Random-draw primitives (interpretations of the global `rng` calls) -/

/-- `rng.choice([0, 1], p=[p0, p1])`: inverse-CDF draw from one tape scalar. -/
def choiceDraw (p0 : ℚ) (u : ℚ) : ℕ := if u < p0 then 0 else 1

/-- `rng.integers(lo, hi)`: raises when `hi <= lo`, otherwise an integer in
`[lo, hi)` determined by the tape scalar. -/
def intDraw (lo hi : ℤ) (u : ℚ) : Option ℤ :=
  if hi ≤ lo then none else some (lo + (u.floor.natAbs : ℤ) % (hi - lo))

/-- `rng.uniform(a, b)` from one tape scalar. -/
def uniformDraw (a b : ℚ) (u : ℚ) : ℚ := a + (b - a) * u

/-- `rng.normal(0, sigma)`: sigma times a standard-normal tape scalar. -/
def normalDraw (σ : ℚ) (u : ℚ) : ℚ := σ * u

/-! ### Markov spike generation (`SimCaD.py`, `generate_markov_spikes`) -/

/-- A 2×2 transition matrix `P`. -/
structure Mat2 where
  p00 : ℚ
  p01 : ℚ
  p10 : ℚ
  p11 : ℚ
deriving DecidableEq

/-- `np.allclose(x, 1)` with NumPy defaults `rtol=1e-5`, `atol=1e-8`. -/
def allclose1 (x : ℚ) : Bool := |x - 1| ≤ 1 / 100000000 + 1 / 100000

/-- The `assert np.allclose(P.sum(axis=1), 1)` guard (the 2×2 shape assert is
structural in `Mat2`). -/
def markovAssert (P : Mat2) : Bool :=
  allclose1 (P.p00 + P.p01) && allclose1 (P.p10 + P.p11)

/-- `P[s, 0]`: probability of drawing 0 from state `s`. -/
def Mat2.row0 (P : Mat2) (s : ℕ) : ℚ := if s = 0 then P.p00 else P.p10

/-- State sequence of one attempt of the Markov loop body
(`spikes[0] = 0`; `spikes[i] = rng.choice([0,1], p=P[spikes[i-1], :])`),
drawing from tape positions `pos, pos+1, ...`. -/
def markovState (P : Mat2) (tape : ℕ → ℚ) (pos : ℕ) : ℕ → ℕ
  | 0 => 0
  | i + 1 => choiceDraw (P.row0 (markovState P tape pos i)) (tape (pos + i))

/-- One attempt of the loop body: the spike train of length `F`. -/
def markovAttempt (F : ℕ) (P : Mat2) (tape : ℕ → ℚ) (pos : ℕ) : List ℕ :=
  (List.range F).map (markovState P tape pos)

/-- The `while True:` rejection loop, with `fuel` outer iterations allowed;
each attempt consumes `F - 1` tape scalars.  Returns the accepted train and
the next tape position. -/
def markovLoop (F : ℕ) (P : Mat2) (tape : ℕ → ℚ) :
    ℕ → ℕ → Option (List ℕ × ℕ)
  | 0, _ => none
  | fuel + 1, pos =>
    let spikes := markovAttempt F P tape pos
    if 0 < spikes.sum then some (spikes, pos + (F - 1))
    else markovLoop F P tape fuel (pos + (F - 1))

/-- `generate_markov_spikes(num_frames, P)` of `SimCaD.py`. -/
def generate_markov_spikes (num_frames : ℕ) (P : Mat2) (tape : ℕ → ℚ)
    (pos fuel : ℕ) : Option (List ℕ × ℕ) :=
  if markovAssert P then markovLoop num_frames P tape fuel pos else none

/-! ### Hawkes spike generation (`SimCaD_Hawkes.py`, `generate_hawkes_spikes`) -/

/-- The intensity accumulation loop of `generate_hawkes_spikes`:
`lam_i = mu`, then for each `k < i` with `spikes[k] == 1` add
`alpha * exp(-(i - k)/tau)` (unclamped). -/
def hawkesLam (expf : ℚ → ℚ) (mu alpha tau : ℚ) (s : List ℕ) (i : ℕ) : ℚ :=
  (List.range i).foldl
    (fun acc k =>
      if s.getD k 0 = 1 then acc + alpha * expf (-(((i - k : ℕ) : ℚ)) / tau)
      else acc)
    mu

/-- One attempt of the Hawkes loop body: sequentially draw
`spikes[i] = 1` iff `rng.random() < min(lam_i, 1.0)`; tape positions
`pos, pos+1, ...`. -/
def hawkesAttempt (expf : ℚ → ℚ) (mu alpha tau : ℚ) (tape : ℕ → ℚ)
    (pos : ℕ) : ℕ → List ℕ
  | 0 => []
  | i + 1 =>
    let prev := hawkesAttempt expf mu alpha tau tape pos i
    prev ++ [if tape (pos + i) < min (hawkesLam expf mu alpha tau prev i) 1
             then 1 else 0]

/-- The Hawkes `while True:` rejection loop; each attempt consumes `F` tape
scalars. -/
def hawkesLoop (F : ℕ) (expf : ℚ → ℚ) (mu alpha tau : ℚ) (tape : ℕ → ℚ) :
    ℕ → ℕ → Option (List ℕ × ℕ)
  | 0, _ => none
  | fuel + 1, pos =>
    let spikes := hawkesAttempt expf mu alpha tau tape pos F
    if 0 < spikes.sum then some (spikes, pos + F)
    else hawkesLoop F expf mu alpha tau tape fuel (pos + F)

/-- `generate_hawkes_spikes(num_frames, mu, alpha, tau)` of
`SimCaD_Hawkes.py`. -/
def generate_hawkes_spikes (num_frames : ℕ) (mu alpha tau : ℚ)
    (expf : ℚ → ℚ) (tape : ℕ → ℚ) (pos fuel : ℕ) : Option (List ℕ × ℕ) :=
  hawkesLoop num_frames expf mu alpha tau tape fuel pos

/-! ### Calcium filters (identical in both scripts) -/

/-- `ar2_coeffs(tau_decay, tau_rise)`. -/
def ar2_coeffs (expf : ℚ → ℚ) (tau_decay tau_rise : ℚ) : ℚ × ℚ :=
  let z1 := expf (-1 / tau_decay)
  let z2 := expf (-1 / tau_rise)
  (z1 + z2, -z1 * z2)

/-- The AR(2) recurrence of `apply_ar2_filter`:
`C[0] = s[0]`, `C[1] = s[1] + θ1·C[0]`, `C[n] = s[n] + θ1·C[n-1] + θ2·C[n-2]`. -/
def ar2C (θ1 θ2 : ℚ) (s : List ℕ) : ℕ → ℚ
  | 0 => (s.getD 0 0 : ℕ)
  | 1 => ((s.getD 1 0 : ℕ) : ℚ) + θ1 * ar2C θ1 θ2 s 0
  | i + 2 => ((s.getD (i + 2) 0 : ℕ) : ℚ) + θ1 * ar2C θ1 θ2 s (i + 1)
      + θ2 * ar2C θ1 θ2 s i

/-- `apply_ar2_filter(spikes, theta)`. -/
def apply_ar2_filter (θ : ℚ × ℚ) (s : List ℕ) : List ℚ :=
  (List.range s.length).map (ar2C θ.1 θ.2 s)

/-- The difference-of-exponentials kernel sampled at integer lag `t`. -/
def biexpKernel (expf : ℚ → ℚ) (tau_decay tau_rise : ℚ) (t : ℕ) : ℚ :=
  expf (-(t : ℚ) / tau_decay) - expf (-(t : ℚ) / tau_rise)

/-- `bi_exp_filter(spikes, tau_decay, tau_rise)`:
`np.convolve(spikes, kernel, mode='full')[:len(spikes)]`. -/
def bi_exp_filter (expf : ℚ → ℚ) (s : List ℕ) (tau_decay tau_rise : ℚ) :
    List ℚ :=
  (List.range s.length).map fun n =>
    ∑ j ∈ Finset.range (n + 1),
      ((s.getD j 0 : ℕ) : ℚ) * biexpKernel expf tau_decay tau_rise (n - j)

/-! ### Gaussian footprints -/

/-- The raw anisotropic Gaussian density grid
(`multivariate_normal(mean=center, cov=diag(sy^2, sx^2)).pdf` over
`np.mgrid[:height, :width]`); `piq` stands for π. -/
def gaussRaw (expf : ℚ → ℚ) (piq : ℚ) (height width : ℕ) (cy cx : ℤ)
    (sigma_y sigma_x : ℚ) : Frame :=
  (List.range height).map fun (y : ℕ) => (List.range width).map fun (x : ℕ) =>
    (1 / (2 * piq * sigma_y * sigma_x)) *
      expf (-((((y : ℤ) - cy : ℤ) : ℚ) ^ 2 / (2 * sigma_y ^ 2)
            + (((x : ℤ) - cx : ℤ) : ℚ) ^ 2 / (2 * sigma_x ^ 2)))

/-- Minimum of a nonempty list (0 for the empty list). -/
def listMin : List ℚ → ℚ
  | [] => 0
  | a :: t => t.foldl min a

/-- Maximum of a nonempty list (0 for the empty list). -/
def listMax : List ℚ → ℚ
  | [] => 0
  | a :: t => t.foldl max a

/-- `footprint.min()` over the 2-D grid. -/
def matMin (m : Frame) : ℚ := listMin m.flatten

/-- `footprint.max()` over the 2-D grid. -/
def matMax (m : Frame) : ℚ := listMax m.flatten

namespace SimCaD

/-- `generate_gaussian_footprint` of `SimCaD.py`: subtract the min, then
divide by `footprint.max() + 1e-12` (the max of the min-subtracted grid). -/
def generate_gaussian_footprint (expf : ℚ → ℚ) (piq : ℚ) (height width : ℕ)
    (cy cx : ℤ) (sigma_y sigma_x : ℚ) (normalize : Bool) : Frame :=
  let footprint := gaussRaw expf piq height width cy cx sigma_y sigma_x
  if normalize then
    let sub := footprint.map (List.map (· - matMin footprint))
    sub.map (List.map (· / (matMax sub + 1 / 1000000000000)))
  else footprint

end SimCaD

namespace SimCaDHawkes

/-- `generate_gaussian_footprint` of `SimCaD_Hawkes.py`: min-max normalize,
skipping the division when `max = min`. -/
def generate_gaussian_footprint (expf : ℚ → ℚ) (piq : ℚ) (height width : ℕ)
    (cy cx : ℤ) (sigma_y sigma_x : ℚ) (normalize : Bool) : Frame :=
  let footprint := gaussRaw expf piq height width cy cx sigma_y sigma_x
  if normalize then
    let mn := matMin footprint
    let mx := matMax footprint
    if mn < mx then footprint.map (List.map fun q => (q - mn) / (mx - mn))
    else footprint.map (List.map (· - mn))
  else footprint

end SimCaDHawkes

/-! ### Motion model (`random_motion`, identical in both scripts) -/

/-- `np.round`: round half to even (banker's rounding), as NumPy does. -/
def roundHalfEven (q : ℚ) : ℤ :=
  let f := q.floor
  let r := q - f
  if r < 1 / 2 then f
  else if 1 / 2 < r then f + 1
  else if f % 2 = 0 then f else f + 1

/-- `random_motion(num_frames, max_shift, smoothing)`: i.i.d. normals of
scale `max_shift/3` (tape positions `pos + 2t`, `pos + 2t + 1`, row major),
smoothed along the frame axis per dimension by `smooth` (standing for
`gaussian_filter1d`), then rounded to integers. -/
def random_motion (tape : ℕ → ℚ) (pos num_frames : ℕ) (max_shift smoothing : ℚ)
    (smooth : ℚ → List ℚ → List ℚ) : List (ℤ × ℤ) :=
  let sm := max_shift / 3
  let ys := (List.range num_frames).map fun t => normalDraw sm (tape (pos + 2 * t))
  let xs := (List.range num_frames).map fun t =>
    normalDraw sm (tape (pos + 2 * t + 1))
  List.zipWith (fun a b => (roundHalfEven a, roundHalfEven b))
    (smooth smoothing ys) (smooth smoothing xs)

/-! ### The movie builders (`generate_synthetic_calcium_movie`) -/

/-- A movie volume: frames × height × width. -/
abbrev Vol := List Frame

/-- `np.clip(q, 0, 255).astype(np.uint8)` for one pixel (cast truncates). -/
def clipU8 (q : ℚ) : ℕ := (max 0 (min 255 q)).floor.toNat

/-- Clip/quantize a whole volume to 8-bit. -/
def clipVol (v : Vol) : List (List (List ℕ)) := v.map (List.map (List.map clipU8))

/-- `movie += background_strength`. -/
def addScalarVol (b : ℚ) (v : Vol) : Vol := v.map (List.map (List.map (· + b)))

/-- The footprint loop of `SimCaD.py`: per cell draw `cy, cx` from
`integers(5, dim-5)` and `sy, sx` from `uniform(3, 4.0)`, four tape scalars
per cell, then synthesize the footprint. -/
def footprintStageSim (expf : ℚ → ℚ) (piq : ℚ) (height width : ℕ)
    (tape : ℕ → ℚ) : ℕ → ℕ → Option (List Frame × ℕ)
  | pos, 0 => some ([], pos)
  | pos, n + 1 => do
    let cy ← intDraw 5 ((height : ℤ) - 5) (tape pos)
    let cx ← intDraw 5 ((width : ℤ) - 5) (tape (pos + 1))
    let sy := uniformDraw 3 4 (tape (pos + 2))
    let sx := uniformDraw 3 4 (tape (pos + 3))
    let fp := SimCaD.generate_gaussian_footprint expf piq height width cy cx
      sy sx true
    let rest ← footprintStageSim expf piq height width tape (pos + 4) n
    some (fp :: rest.1, rest.2)

/-- The footprint loop of `SimCaD_Hawkes.py`: sigmas from `uniform(3.0, 5.0)`
and the guarded normalization. -/
def footprintStageHawkes (expf : ℚ → ℚ) (piq : ℚ) (height width : ℕ)
    (tape : ℕ → ℚ) : ℕ → ℕ → Option (List Frame × ℕ)
  | pos, 0 => some ([], pos)
  | pos, n + 1 => do
    let cy ← intDraw 5 ((height : ℤ) - 5) (tape pos)
    let cx ← intDraw 5 ((width : ℤ) - 5) (tape (pos + 1))
    let sy := uniformDraw 3 5 (tape (pos + 2))
    let sx := uniformDraw 3 5 (tape (pos + 3))
    let fp := SimCaDHawkes.generate_gaussian_footprint expf piq height width
      cy cx sy sx true
    let rest ← footprintStageHawkes expf piq height width tape (pos + 4) n
    some (fp :: rest.1, rest.2)

/-- Spike trains for all cells, Markov strategy, sequential tape consumption. -/
def spikeStageSim (F : ℕ) (P : Mat2) (tape : ℕ → ℚ) (fuel : ℕ) :
    ℕ → ℕ → Option (List (List ℕ) × ℕ)
  | pos, 0 => some ([], pos)
  | pos, n + 1 => do
    let sp ← generate_markov_spikes F P tape pos fuel
    let rest ← spikeStageSim F P tape fuel sp.2 n
    some (sp.1 :: rest.1, rest.2)

/-- Spike trains for all cells, Hawkes strategy, sequential tape consumption. -/
def spikeStageHawkes (F : ℕ) (mu alpha tau : ℚ) (expf : ℚ → ℚ)
    (tape : ℕ → ℚ) (fuel : ℕ) : ℕ → ℕ → Option (List (List ℕ) × ℕ)
  | pos, 0 => some ([], pos)
  | pos, n + 1 => do
    let sp ← generate_hawkes_spikes F mu alpha tau expf tape pos fuel
    let rest ← spikeStageHawkes F mu alpha tau expf tape fuel sp.2 n
    some (sp.1 :: rest.1, rest.2)

/-- Spike train → calcium trace, by the configured strategy. -/
def traceOf (expf : ℚ → ℚ) (use_ar2 : Bool) (tau_decay tau_rise : ℚ)
    (s : List ℕ) : List ℚ :=
  if use_ar2 then apply_ar2_filter (ar2_coeffs expf tau_decay tau_rise) s
  else bi_exp_filter expf s tau_decay tau_rise

/-- Raw compositing of `SimCaD.py`:
`movie[t] += cell_traces[i, t] * cell_masks[i]` (note: no `cell_snr`). -/
def compositeSim (masks : List Frame) (traces : List (List ℚ))
    (F h w : ℕ) : Vol :=
  (List.range F).map fun t => (List.range h).map fun y =>
    (List.range w).map fun x =>
      (masks.zip traces).foldl
        (fun acc mt => acc + mt.2.getD t 0 * pix mt.1 y x) 0

/-- Raw compositing of `SimCaD_Hawkes.py`:
`movie[t] += cell_traces[i, t] * cell_masks[i] * cell_snr`. -/
def compositeHawkes (masks : List Frame) (traces : List (List ℚ))
    (cell_snr : ℚ) (F h w : ℕ) : Vol :=
  (List.range F).map fun t => (List.range h).map fun y =>
    (List.range w).map fun x =>
      (masks.zip traces).foldl
        (fun acc mt => acc + mt.2.getD t 0 * pix mt.1 y x * cell_snr) 0

/-- Per-frame motion application (`shift_frame(movie[t], motion_shifts[t],
fill=background_strength)`); a shape error in any frame aborts the run. -/
def shiftStage (v : Vol) (shifts : List (ℤ × ℤ)) (fill : ℚ) : Option Vol :=
  (v.zip shifts).mapM fun fs => shift_frame fs.1 fs.2.1 fs.2.2 fill

/-- `moved_movie += rng.normal(0, noise_sigma, size=moved_movie.shape)`,
row-major tape consumption from `pos`. -/
def addNoiseVol (v : Vol) (σ : ℚ) (tape : ℕ → ℚ) (pos : ℕ) : Vol :=
  let h := (v.headD []).length
  let w := ((v.headD []).headD []).length
  (List.range v.length).map fun t => (List.range h).map fun y =>
    (List.range w).map fun x =>
      pix (v.getD t []) y x + normalDraw σ (tape (pos + (t * h + y) * w + x))

/-- The bundle returned by `generate_synthetic_calcium_movie`. -/
structure GenResult where
  movie : List (List (List ℕ))
  cell_masks : List Frame
  cell_traces : List (List ℚ)
  spikes_all : List (List ℕ)
  motion_shifts : List (ℤ × ℤ)
deriving DecidableEq

namespace SimCaD

/-- `generate_synthetic_calcium_movie` of `SimCaD.py` (Markov spikes; the
`cell_snr` parameter is accepted but, as in the source, never used). -/
def generate_synthetic_calcium_movie (num_cells num_frames height width : ℕ)
    (spike_transition_matrix : Option Mat2) (tau_decay tau_rise : ℚ)
    (use_ar2 : Bool) (cell_snr background_strength motion_smoothing
    max_shift noise_sigma : ℚ) (expf : ℚ → ℚ) (piq : ℚ)
    (smooth : ℚ → List ℚ → List ℚ) (tape : ℕ → ℚ) (fuel : ℕ) :
    Option GenResult := do
  let P := spike_transition_matrix.getD ⟨98/100, 2/100, 2/100, 98/100⟩
  let motion := random_motion tape 0 num_frames max_shift motion_smoothing smooth
  let fps ← footprintStageSim expf piq height width tape (2 * num_frames)
    num_cells
  let sps ← spikeStageSim num_frames P tape fuel fps.2 num_cells
  let traces := sps.1.map (traceOf expf use_ar2 tau_decay tau_rise)
  let movie0 := compositeSim fps.1 traces num_frames height width
  let movie1 := addScalarVol background_strength movie0
  let moved ← shiftStage movie1 motion background_strength
  let noised := addNoiseVol moved noise_sigma tape sps.2
  some ⟨clipVol noised, fps.1, traces, sps.1, motion⟩

end SimCaD

namespace SimCaDHawkes

/-- `generate_synthetic_calcium_movie` of `SimCaD_Hawkes.py` (Hawkes spikes;
compositing multiplies by `cell_snr`). -/
def generate_synthetic_calcium_movie (num_cells num_frames height width : ℕ)
    (hawkes_mu hawkes_alpha hawkes_tau tau_decay tau_rise : ℚ)
    (use_ar2 : Bool) (cell_snr background_strength motion_smoothing
    max_shift noise_sigma : ℚ) (expf : ℚ → ℚ) (piq : ℚ)
    (smooth : ℚ → List ℚ → List ℚ) (tape : ℕ → ℚ) (fuel : ℕ) :
    Option GenResult := do
  let motion := random_motion tape 0 num_frames max_shift motion_smoothing smooth
  let fps ← footprintStageHawkes expf piq height width tape (2 * num_frames)
    num_cells
  let sps ← spikeStageHawkes num_frames hawkes_mu hawkes_alpha hawkes_tau expf
    tape fuel fps.2 num_cells
  let traces := sps.1.map (traceOf expf use_ar2 tau_decay tau_rise)
  let movie0 := compositeHawkes fps.1 traces cell_snr num_frames height width
  let movie1 := addScalarVol background_strength movie0
  let moved ← shiftStage movie1 motion background_strength
  let noised := addNoiseVol moved noise_sigma tape sps.2
  some ⟨clipVol noised, fps.1, traces, sps.1, motion⟩

end SimCaDHawkes

/-! ### Real-valued Hawkes intensity (for the O(N²) / O(N) equivalence) -/

namespace HawkesR

/-- The intensity accumulation loop of `generate_hawkes_spikes`, over ℝ with
the true exponential: `lam_i = mu`, then for each prior `k < i` with
`s k = 1` add `alpha * exp(-(i - k)/tau)`. -/
noncomputable def lamLoop (mu alpha tau : ℝ) (s : ℕ → ℕ) (i : ℕ) : ℝ :=
  (List.range i).foldl
    (fun acc k =>
      if s k = 1 then acc + alpha * Real.exp (-(((i - k : ℕ) : ℝ)) / tau)
      else acc)
    mu

/-- Modelled from the spec: the recommended O(N) running-sum reformulation —
carry an excitation `excite`, each step `excite *= exp(-1/tau)` after adding
`alpha` when a spike occurred; the intensity is `mu + excite`. -/
noncomputable def excite (alpha tau : ℝ) (s : ℕ → ℕ) : ℕ → ℝ
  | 0 => 0
  | i + 1 =>
    (excite alpha tau s i + if s i = 1 then alpha else 0) * Real.exp (-1 / tau)

/-- Modelled from the spec: the O(N) intensity `mu + excite`. -/
noncomputable def lamRun (mu alpha tau : ℝ) (s : ℕ → ℕ) (i : ℕ) : ℝ :=
  mu + excite alpha tau s i

/-- The sequential spike draw of one Hawkes attempt over ℝ: spike `i` is 1
iff `u i < min(lam_i, 1)` where `lam_i` is computed from the prior spikes. -/
noncomputable def spikesR (mu alpha tau : ℝ) (u : ℕ → ℝ) : ℕ → List ℕ
  | 0 => []
  | i + 1 =>
    let prev := spikesR mu alpha tau u i
    prev ++ [if u i < min (lamLoop mu alpha tau (fun k => prev.getD k 0) i) 1
             then 1 else 0]

end HawkesR

/-- A concrete stand-in for `np.exp` used in concrete evaluations: positive
and strictly increasing on `(-∞, 1)`, with value 1 at 0. -/
def expProxy (q : ℚ) : ℚ := 1 / (1 - q)

/-- Identity smoothing (a concrete instance of the `gaussian_filter1d`
parameter). -/
def smoothId (_σ : ℚ) (l : List ℚ) : List ℚ := l

/-- An adversarial random source: every scalar drawn is 0.  Under it every
Markov draw from the default matrix picks state 0, so no attempt ever
contains a spike. -/
def tapeZero : ℕ → ℚ := fun _ => 0

/-- An adversarial random source: every scalar drawn is 1.  Since the Hawkes
intensity is clamped to at most 1, `rng.random() < lam` never holds, so no
attempt ever contains a spike. -/
def tapeOne : ℕ → ℚ := fun _ => 1

/-- The default transition matrix of `generate_synthetic_calcium_movie`
(`[[0.98, 0.02], [0.02, 0.98]]`). -/
def defaultTransitionMatrix : Mat2 := ⟨98 / 100, 2 / 100, 2 / 100, 98 / 100⟩

/-! ## Theorems -/

/-- C9: for every spike train, the bi-exponential filter's output at index 0
is exactly 0 (the kernel value at lag 0 is `exp 0 - exp 0 = 0`), even when
`spikes[0] = 1`, while the AR(2) filter yields `C[0] = spikes[0]`; hence the
two strategies differ at spike onset by exactly `spikes[0]`. -/
theorem biexp_zero_at_onset_ar2_spike_at_onset (expf : ℚ → ℚ)
    (tau_decay tau_rise θ1 θ2 : ℚ) (s0 : ℕ) (rest : List ℕ) :
    (bi_exp_filter expf (s0 :: rest) tau_decay tau_rise).getD 0 0 = 0 ∧
    (apply_ar2_filter (θ1, θ2) (s0 :: rest)).getD 0 0 = (s0 : ℚ) ∧
    (apply_ar2_filter (θ1, θ2) (s0 :: rest)).getD 0 0
      - (bi_exp_filter expf (s0 :: rest) tau_decay tau_rise).getD 0 0
      = (s0 : ℚ) := by
  have hb : (bi_exp_filter expf (s0 :: rest) tau_decay tau_rise).getD 0 0 = 0 := by
    simp only [bi_exp_filter, List.length_cons, List.range_succ_eq_map,
      List.map_cons, List.getD_cons_zero, Finset.sum_range_one,
      biexpKernel]
    norm_num
  have ha : (apply_ar2_filter (θ1, θ2) (s0 :: rest)).getD 0 0 = (s0 : ℚ) := by
    simp only [apply_ar2_filter, List.length_cons, List.range_succ_eq_map,
      List.map_cons, List.getD_cons_zero]
    rfl
  exact ⟨hb, ha, by rw [hb, ha, sub_zero]⟩

/-- C8: in the Markov-variant builder (`SimCaD.py`) the `cell_snr` parameter
has no effect: with all other arguments and all random draws identical, any
two values of `cell_snr` produce identical movie, footprint, trace, spike
and motion outputs — its compositing loop multiplies traces by footprints
without the `cell_snr` factor, while the Hawkes-variant compositing loop
does apply that factor (second conjunct: a concrete input where it changes
the composited movie). -/
theorem cell_snr_unused_in_markov_builder :
    (∀ (num_cells num_frames height width : ℕ) (P : Option Mat2)
      (tau_decay tau_rise : ℚ) (use_ar2 : Bool)
      (snr1 snr2 background_strength motion_smoothing max_shift noise_sigma : ℚ)
      (expf : ℚ → ℚ) (piq : ℚ) (smooth : ℚ → List ℚ → List ℚ)
      (tape : ℕ → ℚ) (fuel : ℕ),
      SimCaD.generate_synthetic_calcium_movie num_cells num_frames height width
        P tau_decay tau_rise use_ar2 snr1 background_strength motion_smoothing
        max_shift noise_sigma expf piq smooth tape fuel
      = SimCaD.generate_synthetic_calcium_movie num_cells num_frames height
        width P tau_decay tau_rise use_ar2 snr2 background_strength
        motion_smoothing max_shift noise_sigma expf piq smooth tape fuel) ∧
    compositeHawkes [[[1]]] [[1]] 0 1 1 1
      ≠ compositeHawkes [[[1]]] [[1]] 100 1 1 1 := by
  constructor
  · intros
    rfl
  · decide

/-- C2: with an identical configuration and an identically seeded random
source (pointwise-equal draw tapes, and the same external `exp` and
smoothing functions), two runs of either `generate_synthetic_calcium_movie`
produce identical Movie, calcium-trace, spike-train, footprint (and motion)
outputs. -/
theorem identical_seed_identical_outputs :
    (∀ (num_cells num_frames height width : ℕ) (P : Option Mat2)
      (tau_decay tau_rise : ℚ) (use_ar2 : Bool)
      (cell_snr background_strength motion_smoothing max_shift noise_sigma : ℚ)
      (expf expf' : ℚ → ℚ) (piq : ℚ) (smooth smooth' : ℚ → List ℚ → List ℚ)
      (tape tape' : ℕ → ℚ) (fuel : ℕ),
      (∀ q, expf q = expf' q) → (∀ s l, smooth s l = smooth' s l) →
      (∀ n, tape n = tape' n) →
      SimCaD.generate_synthetic_calcium_movie num_cells num_frames height width
        P tau_decay tau_rise use_ar2 cell_snr background_strength
        motion_smoothing max_shift noise_sigma expf piq smooth tape fuel
      = SimCaD.generate_synthetic_calcium_movie num_cells num_frames height
        width P tau_decay tau_rise use_ar2 cell_snr background_strength
        motion_smoothing max_shift noise_sigma expf' piq smooth' tape' fuel) ∧
    (∀ (num_cells num_frames height width : ℕ)
      (hawkes_mu hawkes_alpha hawkes_tau tau_decay tau_rise : ℚ)
      (use_ar2 : Bool)
      (cell_snr background_strength motion_smoothing max_shift noise_sigma : ℚ)
      (expf expf' : ℚ → ℚ) (piq : ℚ) (smooth smooth' : ℚ → List ℚ → List ℚ)
      (tape tape' : ℕ → ℚ) (fuel : ℕ),
      (∀ q, expf q = expf' q) → (∀ s l, smooth s l = smooth' s l) →
      (∀ n, tape n = tape' n) →
      SimCaDHawkes.generate_synthetic_calcium_movie num_cells num_frames height
        width hawkes_mu hawkes_alpha hawkes_tau tau_decay tau_rise use_ar2
        cell_snr background_strength motion_smoothing max_shift noise_sigma
        expf piq smooth tape fuel
      = SimCaDHawkes.generate_synthetic_calcium_movie num_cells num_frames
        height width hawkes_mu hawkes_alpha hawkes_tau tau_decay tau_rise
        use_ar2 cell_snr background_strength motion_smoothing max_shift
        noise_sigma expf' piq smooth' tape' fuel) := by
  constructor
  · intro _ _ _ _ _ _ _ _ _ _ _ _ _ expf expf' _ smooth smooth' tape tape' _
      he hs ht
    rw [funext he, funext fun s => funext (hs s), funext ht]
  · intro _ _ _ _ _ _ _ _ _ _ _ _ _ _ _ expf expf' _ smooth smooth' tape tape'
      _ he hs ht
    rw [funext he, funext fun s => funext (hs s), funext ht]

/-- Witness for C2: a concrete instantiation with two syntactically different
but pointwise-equal tapes and `exp` stand-ins. -/
theorem identical_seed_identical_outputs_witness :
    (SimCaD.generate_synthetic_calcium_movie 0 1 1 1 none 1 1 true 1 1 1 1 1
      expProxy 3 smoothId (fun _ => 0) 1
    = SimCaD.generate_synthetic_calcium_movie 0 1 1 1 none 1 1 true 1 1 1 1 1
      (fun q => 1 / (1 - q)) 3 (fun _ l => l) (fun _ => 0 + 0) 1) ∧
    (SimCaDHawkes.generate_synthetic_calcium_movie 0 1 1 1 1 1 1 1 1 true
      1 1 1 1 1 expProxy 3 smoothId (fun _ => 0) 1
    = SimCaDHawkes.generate_synthetic_calcium_movie 0 1 1 1 1 1 1 1 1 true
      1 1 1 1 1 (fun q => 1 / (1 - q)) 3 (fun _ l => l) (fun _ => 0 + 0) 1) :=
  ⟨identical_seed_identical_outputs.1 0 1 1 1 none 1 1 true 1 1 1 1 1
    expProxy (fun q => 1 / (1 - q)) 3 smoothId (fun _ l => l)
    (fun _ => 0) (fun _ => 0 + 0) 1
    (fun _ => rfl) (fun _ _ => rfl) (fun _ => by norm_num),
   identical_seed_identical_outputs.2 0 1 1 1 1 1 1 1 1 true 1 1 1 1 1
    expProxy (fun q => 1 / (1 - q)) 3 smoothId (fun _ l => l)
    (fun _ => 0) (fun _ => 0 + 0) 1
    (fun _ => rfl) (fun _ _ => rfl) (fun _ => by norm_num)⟩

lemma markovState_tapeZero (pos : ℕ) :
    ∀ i, markovState defaultTransitionMatrix tapeZero pos i = 0
  | 0 => rfl
  | i + 1 => by
    rw [markovState, markovState_tapeZero pos i]
    norm_num [choiceDraw, Mat2.row0, defaultTransitionMatrix, tapeZero]

lemma markovAttempt_tapeZero_sum (F pos : ℕ) :
    (markovAttempt F defaultTransitionMatrix tapeZero pos).sum = 0 := by
  refine List.sum_eq_zero fun x hx => ?_
  simp only [markovAttempt, List.mem_map] at hx
  obtain ⟨i, -, rfl⟩ := hx
  exact markovState_tapeZero pos i

lemma markovLoop_tapeZero (F : ℕ) : ∀ fuel pos : ℕ,
    markovLoop F defaultTransitionMatrix tapeZero fuel pos = none
  | 0, _ => rfl
  | fuel + 1, pos => by
    rw [markovLoop]
    simp only [markovAttempt_tapeZero_sum, lt_self_iff_false, if_false]
    exact markovLoop_tapeZero F fuel _

lemma generate_markov_spikes_tapeZero (F pos fuel : ℕ) :
    generate_markov_spikes F defaultTransitionMatrix tapeZero pos fuel = none := by
  rw [generate_markov_spikes]
  split
  · exact markovLoop_tapeZero F fuel pos
  · rfl

lemma hawkesAttempt_tapeOne_sum (expf : ℚ → ℚ) (mu alpha tau : ℚ) (pos : ℕ) :
    ∀ i, (hawkesAttempt expf mu alpha tau tapeOne pos i).sum = 0
  | 0 => rfl
  | i + 1 => by
    rw [hawkesAttempt]
    simp only [List.sum_append, hawkesAttempt_tapeOne_sum expf mu alpha tau pos i,
      List.sum_cons, List.sum_nil, tapeOne]
    rw [if_neg (not_lt.mpr (min_le_right _ 1))]
    norm_num

lemma hawkesLoop_tapeOne (F : ℕ) (expf : ℚ → ℚ) (mu alpha tau : ℚ) :
    ∀ fuel pos : ℕ, hawkesLoop F expf mu alpha tau tapeOne fuel pos = none
  | 0, _ => rfl
  | fuel + 1, pos => by
    rw [hawkesLoop]
    simp only [hawkesAttempt_tapeOne_sum, lt_self_iff_false, if_false]
    exact hawkesLoop_tapeOne F expf mu alpha tau fuel _

lemma generate_hawkes_spikes_tapeOne (F pos fuel : ℕ) (expf : ℚ → ℚ)
    (mu alpha tau : ℚ) :
    generate_hawkes_spikes F mu alpha tau expf tapeOne pos fuel = none :=
  hawkesLoop_tapeOne F expf mu alpha tau fuel pos

/-- C1 (amended): the spike-train rejection loops of both scripts are
unbounded `while True:` loops with no retry cap and no failure outcome: they
terminate only when some attempt produces at least one spike, and under an
adversarial random source (all-zero draws for Markov with the default
matrix; all-one draws for Hawkes, whose intensity is clamped to at most 1)
they are still running after every finite number `fuel` of retries — no
`max_spike_retries` bound and no `GenerationExhausted` error exist in the
code. -/
theorem spike_rejection_loops_are_unbounded :
    (∀ F fuel pos : ℕ,
      generate_markov_spikes F defaultTransitionMatrix tapeZero pos fuel = none) ∧
    (∀ (F fuel pos : ℕ) (expf : ℚ → ℚ) (mu alpha tau : ℚ),
      generate_hawkes_spikes F mu alpha tau expf tapeOne pos fuel = none) :=
  ⟨fun F fuel pos => generate_markov_spikes_tapeZero F pos fuel,
   fun F fuel pos expf mu alpha tau =>
     generate_hawkes_spikes_tapeOne F pos fuel expf mu alpha tau⟩

/-- C1 counterexample: after 1000 rejection-loop iterations on an
adversarial random source, both generators are still running and neither has
produced any `GenerationExhausted`-style failure — contradicting the claim
that the loop retries at most `max_spike_retries` times and then fails (the
source functions take no such parameter at all). -/
theorem spike_rejection_no_retry_cap :
    generate_markov_spikes 2 defaultTransitionMatrix tapeZero 0 1000 = none ∧
    generate_hawkes_spikes 2 (1 / 100) (1 / 20) 10 expProxy tapeOne 0 1000
      = none :=
  ⟨generate_markov_spikes_tapeZero 2 0 1000,
   generate_hawkes_spikes_tapeOne 2 0 1000 expProxy (1 / 100) (1 / 20) 10⟩

lemma markovAttempt_length (F : ℕ) (P : Mat2) (tape : ℕ → ℚ) (q : ℕ) :
    (markovAttempt F P tape q).length = F := by
  simp [markovAttempt]

lemma markovAttempt_getD (F : ℕ) (P : Mat2) (tape : ℕ → ℚ) (q i : ℕ)
    (hi : i < F) :
    (markovAttempt F P tape q).getD i 0 = markovState P tape q i := by
  rw [markovAttempt, List.getD_eq_getElem?_getD, List.getElem?_map,
    List.getElem?_range hi]
  rfl

lemma markovState_mem01 (P : Mat2) (tape : ℕ → ℚ) (q : ℕ) :
    ∀ i, markovState P tape q i = 0 ∨ markovState P tape q i = 1
  | 0 => Or.inl rfl
  | i + 1 => by
    rw [markovState, choiceDraw]
    split
    · exact Or.inl rfl
    · exact Or.inr rfl

lemma markovLoop_inv (F : ℕ) (P : Mat2) (tape : ℕ → ℚ) : ∀ (fuel pos : ℕ)
    (s : List ℕ) (pos' : ℕ), markovLoop F P tape fuel pos = some (s, pos') →
    ∃ q, s = markovAttempt F P tape q ∧ 0 < s.sum
  | 0, _, _, _, h => by simp [markovLoop] at h
  | fuel + 1, pos, s, pos', h => by
    rw [markovLoop] at h
    split at h
    · obtain ⟨rfl, rfl⟩ : markovAttempt F P tape pos = s ∧ pos + (F - 1) = pos' :=
        by simpa using h
      exact ⟨pos, rfl, by assumption⟩
    · exact markovLoop_inv F P tape fuel (pos + (F - 1)) s pos' h

/-- C4: whenever `generate_markov_spikes` returns for `frame_count = F ≥ 2`
and a valid 2×2 transition matrix, the result has length exactly `F`, starts
with `state[0] = 0`, is {0,1}-valued, each later entry is the categorical
draw given by the matrix row of the previous state at the successive tape
scalars of the accepted attempt, and at least one entry is 1. -/
theorem markov_spikes_characterization (F : ℕ) (P : Mat2) (tape : ℕ → ℚ)
    (pos fuel : ℕ) (s : List ℕ) (pos' : ℕ) (hF : 2 ≤ F)
    (hrow0 : P.p00 + P.p01 = 1) (hrow1 : P.p10 + P.p11 = 1)
    (h : generate_markov_spikes F P tape pos fuel = some (s, pos')) :
    s.length = F ∧ s.getD 0 0 = 0 ∧ (∀ v ∈ s, v = 0 ∨ v = 1) ∧
    (∃ q, ∀ i, 1 ≤ i → i < F →
      s.getD i 0 = choiceDraw (P.row0 (s.getD (i - 1) 0)) (tape (q + (i - 1)))) ∧
    0 < s.sum := by
  rw [generate_markov_spikes] at h
  split at h
  · obtain ⟨q, rfl, hsum⟩ := markovLoop_inv F P tape fuel pos s pos' h
    refine ⟨markovAttempt_length F P tape q, ?_, ?_, ⟨q, ?_⟩, hsum⟩
    · rw [markovAttempt_getD F P tape q 0 (by omega)]
      rfl
    · intro v hv
      simp only [markovAttempt, List.mem_map] at hv
      obtain ⟨i, -, rfl⟩ := hv
      exact markovState_mem01 P tape q i
    · intro i h1 h2
      obtain ⟨j, rfl⟩ : ∃ j, i = j + 1 := ⟨i - 1, by omega⟩
      rw [markovAttempt_getD F P tape q (j + 1) h2,
        markovAttempt_getD F P tape q ((j + 1) - 1) (by omega)]
      rfl
  · exact absurd h (by simp)

/-- Witness for C4 at `F = 2`, the default matrix and the all-one tape:
the first attempt is `[0, 1]`. -/
theorem markov_spikes_characterization_witness :
    ([0, 1] : List ℕ).length = 2 ∧ ([0, 1] : List ℕ).getD 0 0 = 0 ∧
    (∀ v ∈ ([0, 1] : List ℕ), v = 0 ∨ v = 1) ∧
    (∃ q, ∀ i, 1 ≤ i → i < 2 →
      ([0, 1] : List ℕ).getD i 0
        = choiceDraw (defaultTransitionMatrix.row0
            (([0, 1] : List ℕ).getD (i - 1) 0)) (tapeOne (q + (i - 1)))) ∧
    0 < ([0, 1] : List ℕ).sum :=
  markov_spikes_characterization 2 defaultTransitionMatrix tapeOne 0 1 [0, 1] 1
    (by decide) (by norm_num [defaultTransitionMatrix])
    (by norm_num [defaultTransitionMatrix]) (by decide)

namespace HawkesR

lemma foldl_ite_add (p : ℕ → Prop) [DecidablePred p] (f : ℕ → ℝ) :
    ∀ (l : List ℕ) (a : ℝ),
      l.foldl (fun acc k => if p k then acc + f k else acc) a
        = a + (l.map fun k => if p k then f k else 0).sum
  | [], a => by simp
  | k :: t, a => by
    rw [List.foldl_cons, foldl_ite_add p f t, List.map_cons, List.sum_cons]
    by_cases hk : p k <;> simp [hk] <;> ring

lemma list_range_map_sum (g : ℕ → ℝ) :
    ∀ n, ((List.range n).map g).sum = ∑ k ∈ Finset.range n, g k
  | 0 => by simp
  | n + 1 => by
    rw [List.range_succ, List.map_append, List.sum_append,
      list_range_map_sum g n, Finset.sum_range_succ]
    simp

lemma lamLoop_eq_sum (mu alpha tau : ℝ) (s : ℕ → ℕ) (i : ℕ) :
    lamLoop mu alpha tau s i
      = mu + ∑ k ∈ Finset.range i,
          (if s k = 1 then alpha * Real.exp (-(((i - k : ℕ) : ℝ)) / tau)
           else 0) := by
  rw [lamLoop, foldl_ite_add (fun k => s k = 1)
    (fun k => alpha * Real.exp (-(((i - k : ℕ) : ℝ)) / tau)),
    list_range_map_sum]

lemma excite_eq_sum (alpha tau : ℝ) (s : ℕ → ℕ) :
    ∀ i, excite alpha tau s i
      = ∑ k ∈ Finset.range i,
          (if s k = 1 then alpha * Real.exp (-(((i - k : ℕ) : ℝ)) / tau)
           else 0)
  | 0 => by simp [excite]
  | i + 1 => by
    rw [excite, excite_eq_sum alpha tau s i, Finset.sum_range_succ,
      add_mul, Finset.sum_mul]
    have h1 : ∀ k ∈ Finset.range i,
        (if s k = 1 then alpha * Real.exp (-(((i - k : ℕ) : ℝ)) / tau)
         else 0) * Real.exp (-1 / tau)
        = (if s k = 1 then alpha * Real.exp (-(((i + 1 - k : ℕ) : ℝ)) / tau)
           else 0) := by
      intro k hk
      have hki : k < i := Finset.mem_range.mp hk
      have hcast : ((i + 1 - k : ℕ) : ℝ) = ((i - k : ℕ) : ℝ) + 1 := by
        have : i + 1 - k = (i - k) + 1 := by omega
        rw [this]
        push_cast
        ring
      by_cases hs : s k = 1
      · rw [if_pos hs, if_pos hs, hcast, mul_assoc, ← Real.exp_add]
        ring_nf
      · rw [if_neg hs, if_neg hs, zero_mul]
    rw [Finset.sum_congr rfl h1]
    congr 1
    by_cases hs : s i = 1
    · rw [if_pos hs, if_pos hs]
      have : ((i + 1 - i : ℕ) : ℝ) = 1 := by
        norm_num
      rw [this]
    · rw [if_neg hs, if_neg hs, zero_mul]

lemma spikesR_length (mu alpha tau : ℝ) (u : ℕ → ℝ) :
    ∀ n, (spikesR mu alpha tau u n).length = n
  | 0 => rfl
  | n + 1 => by
    rw [spikesR]
    simp [spikesR_length mu alpha tau u n]

end HawkesR

/-- C5: in the Hawkes strategy the (clamped) intensity used for the
sequential Bernoulli draw at step `i` is `min (mu + Σ_{k<i, spike k = 1}
alpha·exp(-(i-k)/tau)) 1` — first conjunct: the code's accumulation loop
equals that sum; fourth and fifth conjuncts: spike `i` of the generated
train is the Bernoulli indicator of that intensity over the train's own
prior entries, and entries are stable as the train is extended (sequential
generation) — and for every spike history the O(N) running-sum
reformulation yields exactly the same intensity sequence as the direct
O(N²) double loop (second and third conjuncts, unclamped hence also
clamped). -/
theorem hawkes_intensity_sum_and_running_equivalence (mu alpha tau : ℝ)
    (s : ℕ → ℕ) (u : ℕ → ℝ) :
    (∀ i, HawkesR.lamLoop mu alpha tau s i
      = mu + ∑ k ∈ Finset.range i,
          (if s k = 1 then alpha * Real.exp (-(((i - k : ℕ) : ℝ)) / tau)
           else 0)) ∧
    (∀ i, HawkesR.lamLoop mu alpha tau s i = HawkesR.lamRun mu alpha tau s i) ∧
    (∀ i, min (HawkesR.lamLoop mu alpha tau s i) 1
      = min (HawkesR.lamRun mu alpha tau s i) 1) ∧
    (∀ i, (HawkesR.spikesR mu alpha tau u (i + 1)).getD i 0
      = if u i < min (HawkesR.lamLoop mu alpha tau
            (fun k => (HawkesR.spikesR mu alpha tau u i).getD k 0) i) 1
        then 1 else 0) ∧
    (∀ n i, i < n → (HawkesR.spikesR mu alpha tau u n).getD i 0
      = (HawkesR.spikesR mu alpha tau u (i + 1)).getD i 0) := by
  have hrun : ∀ i, HawkesR.lamLoop mu alpha tau s i
      = HawkesR.lamRun mu alpha tau s i := by
    intro i
    rw [HawkesR.lamLoop_eq_sum, HawkesR.lamRun, HawkesR.excite_eq_sum]
  have hbit : ∀ i, (HawkesR.spikesR mu alpha tau u (i + 1)).getD i 0
      = if u i < min (HawkesR.lamLoop mu alpha tau
            (fun k => (HawkesR.spikesR mu alpha tau u i).getD k 0) i) 1
        then 1 else 0 := by
    intro i
    rw [HawkesR.spikesR]
    rw [List.getD_eq_getElem?_getD, List.getElem?_append_right
      (by rw [HawkesR.spikesR_length])]
    simp [HawkesR.spikesR_length]
  refine ⟨HawkesR.lamLoop_eq_sum mu alpha tau s, hrun, fun i => by rw [hrun],
    hbit, ?_⟩
  intro n i hin
  induction n with
  | zero => omega
  | succ m ih =>
    rcases Nat.lt_or_ge i m with him | him
    · rw [← ih him]
      rw [HawkesR.spikesR, List.getD_eq_getElem?_getD,
        List.getElem?_append_left (by rw [HawkesR.spikesR_length]; exact him),
        ← List.getD_eq_getElem?_getD]
    · have : i = m := by omega
      subst this
      rfl

lemma foldl_min_map (f : ℚ → ℚ) (hf : ∀ a b, f (min a b) = min (f a) (f b)) :
    ∀ (t : List ℚ) (a : ℚ), (t.map f).foldl min (f a) = f (t.foldl min a)
  | [], _ => rfl
  | b :: t, a => by
    rw [List.map_cons, List.foldl_cons, List.foldl_cons, ← hf,
      foldl_min_map f hf t (min a b)]

lemma foldl_max_map (f : ℚ → ℚ) (hf : ∀ a b, f (max a b) = max (f a) (f b)) :
    ∀ (t : List ℚ) (a : ℚ), (t.map f).foldl max (f a) = f (t.foldl max a)
  | [], _ => rfl
  | b :: t, a => by
    rw [List.map_cons, List.foldl_cons, List.foldl_cons, ← hf,
      foldl_max_map f hf t (max a b)]

lemma listMin_map (f : ℚ → ℚ) (hf : ∀ a b, f (min a b) = min (f a) (f b)) :
    ∀ (l : List ℚ), l ≠ [] → listMin (l.map f) = f (listMin l)
  | [], hl => absurd rfl hl
  | a :: t, _ => by
    rw [List.map_cons, listMin, listMin, foldl_min_map f hf]

lemma listMax_map (f : ℚ → ℚ) (hf : ∀ a b, f (max a b) = max (f a) (f b)) :
    ∀ (l : List ℚ), l ≠ [] → listMax (l.map f) = f (listMax l)
  | [], hl => absurd rfl hl
  | a :: t, _ => by
    rw [List.map_cons, listMax, listMax, foldl_max_map f hf]

lemma matMin_map (f : ℚ → ℚ) (hf : ∀ a b, f (min a b) = min (f a) (f b))
    (m : Frame) (hm : m.flatten ≠ []) :
    matMin (m.map (List.map f)) = f (matMin m) := by
  rw [matMin, matMin, ← List.map_flatten, listMin_map f hf _ hm]

lemma matMax_map (f : ℚ → ℚ) (hf : ∀ a b, f (max a b) = max (f a) (f b))
    (m : Frame) (hm : m.flatten ≠ []) :
    matMax (m.map (List.map f)) = f (matMax m) := by
  rw [matMax, matMax, ← List.map_flatten, listMax_map f hf _ hm]

lemma foldl_min_le_init : ∀ (t : List ℚ) (a : ℚ), t.foldl min a ≤ a
  | [], _ => le_refl _
  | b :: t, a => le_trans (foldl_min_le_init t (min a b)) (min_le_left a b)

lemma le_foldl_max_init : ∀ (t : List ℚ) (a : ℚ), a ≤ t.foldl max a
  | [], _ => le_refl _
  | b :: t, a => le_trans (le_max_left a b) (le_foldl_max_init t (max a b))

lemma foldl_min_le_mem : ∀ (t : List ℚ) (a x : ℚ), x ∈ t → t.foldl min a ≤ x
  | [], _, _, hx => absurd hx (List.not_mem_nil _)
  | b :: t, a, x, hx => by
    rw [List.foldl_cons]
    rcases List.mem_cons.mp hx with rfl | hx
    · exact le_trans (foldl_min_le_init t (min a x)) (min_le_right a x)
    · exact foldl_min_le_mem t (min a b) x hx

lemma mem_le_foldl_max : ∀ (t : List ℚ) (a x : ℚ), x ∈ t → x ≤ t.foldl max a
  | [], _, _, hx => absurd hx (List.not_mem_nil _)
  | b :: t, a, x, hx => by
    rw [List.foldl_cons]
    rcases List.mem_cons.mp hx with rfl | hx
    · exact le_trans (le_max_right a x) (le_foldl_max_init t (max a x))
    · exact mem_le_foldl_max t (max a b) x hx

lemma listMin_le_mem (l : List ℚ) (x : ℚ) (hx : x ∈ l) : listMin l ≤ x := by
  match l, hx with
  | a :: t, hx =>
    rw [listMin]
    rcases List.mem_cons.mp hx with rfl | hx
    · exact foldl_min_le_init t x
    · exact foldl_min_le_mem t a x hx

lemma mem_le_listMax (l : List ℚ) (x : ℚ) (hx : x ∈ l) : x ≤ listMax l := by
  match l, hx with
  | a :: t, hx =>
    rw [listMax]
    rcases List.mem_cons.mp hx with rfl | hx
    · exact le_foldl_max_init t x
    · exact mem_le_foldl_max t a x hx

lemma matMin_le_matMax (m : Frame) (hm : m.flatten ≠ []) :
    matMin m ≤ matMax m := by
  obtain ⟨x, hx⟩ : ∃ x, x ∈ m.flatten := by
    cases hf : m.flatten with
    | nil => exact absurd hf hm
    | cons y t => exact ⟨y, hf ▸ List.mem_cons_self y t⟩
  exact le_trans (listMin_le_mem _ x hx) (mem_le_listMax _ x hx)

lemma gaussRaw_flatten_length (expf : ℚ → ℚ) (piq : ℚ) (height width : ℕ)
    (cy cx : ℤ) (sigma_y sigma_x : ℚ) :
    (gaussRaw expf piq height width cy cx sigma_y sigma_x).flatten.length
      = height * width := by
  simp only [gaussRaw, List.length_flatten, List.map_map, Function.comp_def,
    List.length_map, List.length_range]
  rw [List.map_const']
  simp [List.sum_replicate, smul_eq_mul]

lemma gaussRaw_flatten_ne_nil (expf : ℚ → ℚ) (piq : ℚ) (height width : ℕ)
    (cy cx : ℤ) (sigma_y sigma_x : ℚ) (hh : 0 < height) (hw : 0 < width) :
    (gaussRaw expf piq height width cy cx sigma_y sigma_x).flatten ≠ [] := by
  intro hcon
  have := gaussRaw_flatten_length expf piq height width cy cx sigma_y sigma_x
  rw [hcon] at this
  simp only [List.length_nil] at this
  exact absurd this.symm (Nat.ne_of_gt (Nat.mul_pos hh hw))

lemma hawkesFootprint_unfold (expf : ℚ → ℚ) (piq : ℚ) (height width : ℕ)
    (cy cx : ℤ) (sigma_y sigma_x : ℚ) :
    SimCaDHawkes.generate_gaussian_footprint expf piq height width cy cx
        sigma_y sigma_x true
      = (if matMin (gaussRaw expf piq height width cy cx sigma_y sigma_x)
            < matMax (gaussRaw expf piq height width cy cx sigma_y sigma_x)
         then (gaussRaw expf piq height width cy cx sigma_y sigma_x).map
            (List.map fun q =>
              (q - matMin (gaussRaw expf piq height width cy cx sigma_y sigma_x))
              / (matMax (gaussRaw expf piq height width cy cx sigma_y sigma_x)
                 - matMin (gaussRaw expf piq height width cy cx sigma_y sigma_x)))
         else (gaussRaw expf piq height width cy cx sigma_y sigma_x).map
            (List.map
              (· - matMin (gaussRaw expf piq height width cy cx sigma_y sigma_x))))
      := rfl

lemma simcadFootprint_unfold (expf : ℚ → ℚ) (piq : ℚ) (height width : ℕ)
    (cy cx : ℤ) (sigma_y sigma_x : ℚ) :
    SimCaD.generate_gaussian_footprint expf piq height width cy cx
        sigma_y sigma_x true
      = ((gaussRaw expf piq height width cy cx sigma_y sigma_x).map
          (List.map
            (· - matMin (gaussRaw expf piq height width cy cx sigma_y sigma_x)))).map
         (List.map (· / (matMax
            ((gaussRaw expf piq height width cy cx sigma_y sigma_x).map
              (List.map (· - matMin
                (gaussRaw expf piq height width cy cx sigma_y sigma_x))))
            + 1 / 1000000000000))) := rfl

/-- C3 (amended): for positive dimensions and sigmas, writing `m`/`M` for the
min/max of the raw Gaussian density grid: the Hawkes-variant
`generate_gaussian_footprint` with `normalize=True` returns min exactly 0 and
max exactly 1 in the non-degenerate case `m < M`, and returns the
min-subtracted unscaled values when `M = m` (division skipped); the
SimCaD-variant divides unconditionally by `(M - m) + 1e-12`, so its min is
exactly 0 but its max is `(M-m)/((M-m)+1e-12)`, strictly less than 1 in the
non-degenerate case; in the degenerate case its output still equals the
min-subtracted (all-zero) values. -/
theorem footprint_normalization_minmax (expf : ℚ → ℚ) (piq : ℚ)
    (height width : ℕ) (cy cx : ℤ) (sigma_y sigma_x : ℚ)
    (hh : 0 < height) (hw : 0 < width) (hsy : 0 < sigma_y) (hsx : 0 < sigma_x) :
    (matMin (gaussRaw expf piq height width cy cx sigma_y sigma_x)
        < matMax (gaussRaw expf piq height width cy cx sigma_y sigma_x) →
      matMin (SimCaDHawkes.generate_gaussian_footprint expf piq height width
        cy cx sigma_y sigma_x true) = 0 ∧
      matMax (SimCaDHawkes.generate_gaussian_footprint expf piq height width
        cy cx sigma_y sigma_x true) = 1) ∧
    (matMax (gaussRaw expf piq height width cy cx sigma_y sigma_x)
        = matMin (gaussRaw expf piq height width cy cx sigma_y sigma_x) →
      SimCaDHawkes.generate_gaussian_footprint expf piq height width cy cx
        sigma_y sigma_x true
      = (gaussRaw expf piq height width cy cx sigma_y sigma_x).map
          (List.map (· - matMin
            (gaussRaw expf piq height width cy cx sigma_y sigma_x)))) ∧
    (matMin (SimCaD.generate_gaussian_footprint expf piq height width cy cx
        sigma_y sigma_x true) = 0 ∧
     matMax (SimCaD.generate_gaussian_footprint expf piq height width cy cx
        sigma_y sigma_x true)
      = (matMax (gaussRaw expf piq height width cy cx sigma_y sigma_x)
         - matMin (gaussRaw expf piq height width cy cx sigma_y sigma_x))
        / ((matMax (gaussRaw expf piq height width cy cx sigma_y sigma_x)
         - matMin (gaussRaw expf piq height width cy cx sigma_y sigma_x))
           + 1 / 1000000000000)) ∧
    (matMin (gaussRaw expf piq height width cy cx sigma_y sigma_x)
        < matMax (gaussRaw expf piq height width cy cx sigma_y sigma_x) →
      matMax (SimCaD.generate_gaussian_footprint expf piq height width cy cx
        sigma_y sigma_x true) < 1) ∧
    (matMax (gaussRaw expf piq height width cy cx sigma_y sigma_x)
        = matMin (gaussRaw expf piq height width cy cx sigma_y sigma_x) →
      SimCaD.generate_gaussian_footprint expf piq height width cy cx
        sigma_y sigma_x true
      = (gaussRaw expf piq height width cy cx sigma_y sigma_x).map
          (List.map (· - matMin
            (gaussRaw expf piq height width cy cx sigma_y sigma_x)))) := by
  set raw := gaussRaw expf piq height width cy cx sigma_y sigma_x with hraw
  have hne : raw.flatten ≠ [] :=
    gaussRaw_flatten_ne_nil expf piq height width cy cx sigma_y sigma_x hh hw
  set mn := matMin raw with hmn
  set mx := matMax raw with hmx
  have hmnx : mn ≤ mx := matMin_le_matMax raw hne
  have hsubne : (raw.map (List.map (· - mn))).flatten ≠ [] := by
    rw [← List.map_flatten]
    simp only [ne_eq, List.map_eq_nil_iff]
    exact hne
  have hsubmin : matMin (raw.map (List.map (· - mn))) = 0 := by
    rw [matMin_map (· - mn) (fun a b => (min_sub_sub_right a b mn).symm) raw hne,
      ← hmn, sub_self]
  have hsubmax : matMax (raw.map (List.map (· - mn))) = mx - mn := by
    rw [matMax_map (· - mn) (fun a b => (max_sub_sub_right a b mn).symm) raw hne]
  have hD : (0 : ℚ) < mx - mn + 1 / 1000000000000 := by
    have : (0 : ℚ) ≤ mx - mn := sub_nonneg.mpr hmnx
    linarith
  refine ⟨?_, ?_, ?_, ?_, ?_⟩
  · intro hlt
    have hd : (0 : ℚ) < mx - mn := sub_pos.mpr hlt
    have hf : ∀ a b : ℚ, (min a b - mn) / (mx - mn)
        = min ((a - mn) / (mx - mn)) ((b - mn) / (mx - mn)) := by
      intro a b
      rw [min_div_div_right hd.le, min_sub_sub_right]
    have hg : ∀ a b : ℚ, (max a b - mn) / (mx - mn)
        = max ((a - mn) / (mx - mn)) ((b - mn) / (mx - mn)) := by
      intro a b
      rw [max_div_div_right hd.le, max_sub_sub_right]
    rw [hawkesFootprint_unfold, ← hraw, ← hmn, ← hmx, if_pos hlt]
    constructor
    · rw [matMin_map (fun q => (q - mn) / (mx - mn)) hf raw hne, ← hmn,
        sub_self, zero_div]
    · rw [matMax_map (fun q => (q - mn) / (mx - mn)) hg raw hne, ← hmx,
        div_self (ne_of_gt hd)]
  · intro hdeg
    rw [hawkesFootprint_unfold, ← hraw, ← hmn, ← hmx,
      if_neg (by rw [hdeg]; exact lt_irrefl mn)]
  · constructor
    · rw [simcadFootprint_unfold, ← hraw, ← hmn, hsubmax,
        matMin_map _ (fun a b => (min_div_div_right hD.le a b).symm) _ hsubne,
        hsubmin, zero_div]
    · rw [simcadFootprint_unfold, ← hraw, ← hmn, hsubmax,
        matMax_map _ (fun a b => (max_div_div_right hD.le a b).symm) _ hsubne,
        hsubmax]
  · intro hlt
    have hd : (0 : ℚ) < mx - mn := sub_pos.mpr hlt
    rw [simcadFootprint_unfold, ← hraw, ← hmn, hsubmax,
      matMax_map _ (fun a b => (max_div_div_right hD.le a b).symm) _ hsubne,
      hsubmax, div_lt_one hD]
    linarith
  · intro hdeg
    have hall : ∀ x ∈ (raw.map (List.map (· - mn))).flatten, x = 0 := by
      intro x hx
      rw [← List.map_flatten, List.mem_map] at hx
      obtain ⟨y, hy, rfl⟩ := hx
      have h1 : mn ≤ y := listMin_le_mem _ y hy
      have h2 : y ≤ mx := mem_le_listMax _ y hy
      have : y = mn := le_antisymm (hdeg ▸ h2) h1
      rw [this, sub_self]
    rw [simcadFootprint_unfold, ← hraw, ← hmn]
    have hrows : ∀ row ∈ raw.map (List.map (· - mn)),
        row.map (· / (matMax (raw.map (List.map (· - mn)))
          + 1 / 1000000000000)) = row := by
      intro row hrow
      have hx : ∀ x ∈ row, x / (matMax (raw.map (List.map (· - mn)))
          + 1 / 1000000000000) = x := by
        intro x hxr
        rw [hall x (List.mem_flatten.mpr ⟨row, hrow, hxr⟩), zero_div]
      calc row.map (· / (matMax (raw.map (List.map (· - mn)))
              + 1 / 1000000000000))
          = row.map id := List.map_congr_left hx
        _ = row := List.map_id row
    calc (raw.map (List.map (· - mn))).map
          (List.map (· / (matMax (raw.map (List.map (· - mn)))
            + 1 / 1000000000000)))
        = (raw.map (List.map (· - mn))).map id := List.map_congr_left hrows
      _ = raw.map (List.map (· - mn)) := List.map_id _

/-- Witness for C3 at a concrete non-degenerate instance (1×2 grid, center
(0,0), unit sigmas, a concrete exponential stand-in): the hypotheses hold
and the raw density really has distinct min and max. -/
theorem footprint_normalization_minmax_witness :
    (matMin (gaussRaw expProxy 3 1 2 0 0 1 1)
      < matMax (gaussRaw expProxy 3 1 2 0 0 1 1)) ∧
    (matMin (gaussRaw expProxy 3 1 2 0 0 1 1)
        < matMax (gaussRaw expProxy 3 1 2 0 0 1 1) →
      matMin (SimCaDHawkes.generate_gaussian_footprint expProxy 3 1 2 0 0 1 1
        true) = 0 ∧
      matMax (SimCaDHawkes.generate_gaussian_footprint expProxy 3 1 2 0 0 1 1
        true) = 1) ∧
    (matMin (gaussRaw expProxy 3 1 2 0 0 1 1)
        < matMax (gaussRaw expProxy 3 1 2 0 0 1 1) →
      matMax (SimCaD.generate_gaussian_footprint expProxy 3 1 2 0 0 1 1 true)
        < 1) :=
  ⟨by decide,
   (footprint_normalization_minmax expProxy 3 1 2 0 0 1 1 (by decide)
     (by decide) (by decide) (by decide)).1,
   (footprint_normalization_minmax expProxy 3 1 2 0 0 1 1 (by decide)
     (by decide) (by decide) (by decide)).2.2.2.1⟩

/-- C3 counterexample: at a concrete non-degenerate instance the
SimCaD-variant `generate_gaussian_footprint` (which divides by
`max + 1e-12`) does not attain max exactly 1, against the claim. -/
theorem simcad_footprint_max_not_one :
    matMax (SimCaD.generate_gaussian_footprint expProxy 3 1 2 0 0 1 1 true)
      ≠ 1 := by decide

lemma pyBound_le (n : ℕ) (i : ℤ) : pyBound n i ≤ n := by
  rw [pyBound]
  split <;> omega

lemma pyBound_cast (n : ℕ) (i : ℤ) (h0 : 0 ≤ i) (hn : i ≤ n) :
    (pyBound n i : ℤ) = i := by
  rw [pyBound]
  split <;> omega

lemma slice1_length {α : Type} (l : List α) (a b : ℤ) :
    (slice1 l a b).length = pyBound l.length b - pyBound l.length a := by
  rw [slice1, List.length_drop, List.length_take]
  have := pyBound_le l.length b
  omega

lemma slice1_getD {α : Type} (l : List α) (a b : ℤ) (i : ℕ) (d : α)
    (hi : i < pyBound l.length b - pyBound l.length a) :
    (slice1 l a b).getD i d = l.getD (pyBound l.length a + i) d := by
  rw [slice1, List.getD_eq_getElem?_getD, List.getElem?_drop,
    List.getElem?_take_of_lt (by omega), ← List.getD_eq_getElem?_getD]

lemma getD_replicate_of_lt {α : Type} (n i : ℕ) (a d : α) (hi : i < n) :
    (List.replicate n a).getD i d = a := by
  rw [List.getD_eq_getElem?_getD, List.getElem?_replicate, if_pos hi]
  rfl

lemma slice2_getD_getD (m : Frame) (ya yb xa xb : ℤ) (w : ℕ)
    (hw : ∀ r ∈ m, r.length = w) (i j : ℕ)
    (hi : i < pyBound m.length yb - pyBound m.length ya)
    (hj : j < pyBound w xb - pyBound w xa) :
    ((slice2 m ya yb xa xb).getD i []).getD j 0
      = (m.getD (pyBound m.length ya + i) []).getD (pyBound w xa + j) 0 := by
  have hi' : i < (slice1 m ya yb).length := by
    rw [slice1_length]
    exact hi
  have hrow : (slice2 m ya yb xa xb).getD i []
      = slice1 (m.getD (pyBound m.length ya + i) []) xa xb := by
    rw [slice2, List.getD_eq_getElem?_getD, List.getElem?_map,
      List.getElem?_eq_getElem hi']
    simp only [Option.map_some', Option.getD_some]
    rw [← List.getD_eq_getElem (slice1 m ya yb) [] hi',
      slice1_getD m ya yb i [] hi]
  have hmem : m.getD (pyBound m.length ya + i) [] ∈ m := by
    have hlt : pyBound m.length ya + i < m.length := by
      have := pyBound_le m.length yb
      omega
    rw [List.getD_eq_getElem m [] hlt]
    exact List.getElem_mem _
  have hlen : (m.getD (pyBound m.length ya + i) []).length = w := hw _ hmem
  rw [hrow, slice1_getD _ xa xb j 0 (by rw [hlen]; exact hj), hlen]

set_option maxHeartbeats 2000000 in
lemma shift_frame_spec (frame : Frame) (dy dx : ℤ) (fill : ℚ)
    (hrect : ∀ r ∈ frame, r.length = (frame.headD []).length)
    (hdy : dy.natAbs ≤ frame.length)
    (hdx : dx.natAbs ≤ (frame.headD []).length) :
    shift_frame frame dy dx fill
      = some ((List.range frame.length).map fun (y : ℕ) =>
          (List.range (frame.headD []).length).map fun (x : ℕ) =>
            if dy ≤ (y : ℤ) ∧ (y : ℤ) < (frame.length : ℤ) + dy
               ∧ dx ≤ (x : ℤ) ∧ (x : ℤ) < ((frame.headD []).length : ℤ) + dx
            then (frame.getD ((y : ℤ) - dy).toNat []).getD ((x : ℤ) - dx).toNat 0
            else fill) := by
  simp only [shift_frame, setSlice2, List.length_replicate]
  have hya : pyBound frame.length (max 0 dy) = (max 0 dy).toNat := by
    have := pyBound_cast frame.length (max 0 dy) (le_max_left _ _) (by omega)
    omega
  have hyb : pyBound frame.length
      (min (frame.length : ℤ) ((frame.length : ℤ) + dy))
      = (min (frame.length : ℤ) ((frame.length : ℤ) + dy)).toNat := by
    have := pyBound_cast frame.length
      (min (frame.length : ℤ) ((frame.length : ℤ) + dy)) (by omega) (by omega)
    omega
  have hxa : pyBound (frame.headD []).length (max 0 dx) = (max 0 dx).toNat := by
    have := pyBound_cast (frame.headD []).length (max 0 dx)
      (le_max_left _ _) (by omega)
    omega
  have hxb : pyBound (frame.headD []).length
      (min ((frame.headD []).length : ℤ) (((frame.headD []).length : ℤ) + dx))
      = (min ((frame.headD []).length : ℤ)
          (((frame.headD []).length : ℤ) + dx)).toNat := by
    have := pyBound_cast (frame.headD []).length
      (min ((frame.headD []).length : ℤ) (((frame.headD []).length : ℤ) + dx))
      (by omega) (by omega)
    omega
  have hsys : pyBound frame.length (max 0 (-dy)) = (max 0 (-dy)).toNat := by
    have := pyBound_cast frame.length (max 0 (-dy)) (le_max_left _ _) (by omega)
    omega
  have hsye : pyBound frame.length
      (max 0 (-dy) + (min (frame.length : ℤ) ((frame.length : ℤ) + dy)
        - max 0 dy))
      = (max 0 (-dy) + (min (frame.length : ℤ) ((frame.length : ℤ) + dy)
        - max 0 dy)).toNat := by
    have := pyBound_cast frame.length
      (max 0 (-dy) + (min (frame.length : ℤ) ((frame.length : ℤ) + dy)
        - max 0 dy)) (by omega) (by omega)
    omega
  have hsxs : pyBound (frame.headD []).length (max 0 (-dx))
      = (max 0 (-dx)).toNat := by
    have := pyBound_cast (frame.headD []).length (max 0 (-dx))
      (le_max_left _ _) (by omega)
    omega
  have hsxe : pyBound (frame.headD []).length
      (max 0 (-dx) + (min ((frame.headD []).length : ℤ)
        (((frame.headD []).length : ℤ) + dx) - max 0 dx))
      = (max 0 (-dx) + (min ((frame.headD []).length : ℤ)
        (((frame.headD []).length : ℤ) + dx) - max 0 dx)).toNat := by
    have := pyBound_cast (frame.headD []).length
      (max 0 (-dx) + (min ((frame.headD []).length : ℤ)
        (((frame.headD []).length : ℤ) + dx) - max 0 dx)) (by omega) (by omega)
    omega
  rw [hya, hyb, hxa, hxb, hsys, hsye, hsxs, hsxe]
  rw [if_pos ⟨Or.inl (by omega), Or.inl (by omega)⟩]
  clear hya hyb hxa hxb
  refine congrArg some (List.map_congr_left fun y hy => ?_)
  rw [List.mem_range] at hy
  refine List.map_congr_left fun x hx => ?_
  rw [List.mem_range] at hx
  by_cases hin : dy ≤ (y : ℤ) ∧ (y : ℤ) < (frame.length : ℤ) + dy
      ∧ dx ≤ (x : ℤ) ∧ (x : ℤ) < ((frame.headD []).length : ℤ) + dx
  · rw [if_pos (by omega), if_pos hin]
    obtain ⟨hin1, hin2, hin3, hin4⟩ := hin
    have hiy : (if (max 0 (-dy) + (min (frame.length : ℤ)
          ((frame.length : ℤ) + dy) - max 0 dy)).toNat - (max 0 (-dy)).toNat = 1
        then 0 else y - (max 0 dy).toNat) = y - (max 0 dy).toNat := by
      split <;> omega
    have hix : (if (max 0 (-dx) + (min ((frame.headD []).length : ℤ)
          (((frame.headD []).length : ℤ) + dx) - max 0 dx)).toNat
          - (max 0 (-dx)).toNat = 1
        then 0 else x - (max 0 dx).toNat) = x - (max 0 dx).toNat := by
      split <;> omega
    have hby : y - (max 0 dy).toNat
        < pyBound frame.length (max 0 (-dy)
            + (min (frame.length : ℤ) ((frame.length : ℤ) + dy) - max 0 dy))
          - pyBound frame.length (max 0 (-dy)) := by
      rw [hsys, hsye]
      omega
    have hbx : x - (max 0 dx).toNat
        < pyBound (frame.headD []).length (max 0 (-dx)
            + (min ((frame.headD []).length : ℤ)
              (((frame.headD []).length : ℤ) + dx) - max 0 dx))
          - pyBound (frame.headD []).length (max 0 (-dx)) := by
      rw [hsxs, hsxe]
      omega
    rw [hiy, hix,
      slice2_getD_getD frame (max 0 (-dy))
        (max 0 (-dy) + (min (frame.length : ℤ) ((frame.length : ℤ) + dy)
          - max 0 dy))
        (max 0 (-dx))
        (max 0 (-dx) + (min ((frame.headD []).length : ℤ)
          (((frame.headD []).length : ℤ) + dx) - max 0 dx))
        (frame.headD []).length hrect
        (y - (max 0 dy).toNat) (x - (max 0 dx).toNat) hby hbx,
      hsys, hsxs]
    have hyidx : (max 0 (-dy)).toNat + (y - (max 0 dy).toNat)
        = ((y : ℤ) - dy).toNat := by omega
    have hxidx : (max 0 (-dx)).toNat + (x - (max 0 dx).toNat)
        = ((x : ℤ) - dx).toNat := by omega
    rw [hyidx, hxidx]
  · have hcn : ¬((max 0 dy).toNat ≤ y
        ∧ y < (min (frame.length : ℤ) ((frame.length : ℤ) + dy)).toNat
        ∧ (max 0 dx).toNat ≤ x
        ∧ x < (min ((frame.headD []).length : ℤ)
            (((frame.headD []).length : ℤ) + dx)).toNat) := by
      omega
    rw [if_neg hcn, if_neg hin, pix,
      getD_replicate_of_lt _ _ _ _ hy, getD_replicate_of_lt _ _ _ _ hx]

/-- C6: translating a uniform-valued `h×w` frame by a nonzero shift
`(dy, dx)` with `|dy| < h`, `|dx| < w` — `shift_frame` as the compositor
invokes it, with `fill = background_strength` — gives a frame whose shifted
interior (the translated block) still holds the original value `v` and whose
exposed border of `|dy|` rows and `|dx|` columns holds the background value,
with no wrap-around. -/
theorem shift_uniform_frame_interior_and_border (h w : ℕ) (v bg : ℚ)
    (dy dx : ℤ) (hnz : ¬(dy = 0 ∧ dx = 0)) (hdy : dy.natAbs < h)
    (hdx : dx.natAbs < w) :
    shift_frame (List.replicate h (List.replicate w v)) dy dx bg
      = some ((List.range h).map fun (y : ℕ) =>
          (List.range w).map fun (x : ℕ) =>
            if dy ≤ (y : ℤ) ∧ (y : ℤ) < (h : ℤ) + dy
               ∧ dx ≤ (x : ℤ) ∧ (x : ℤ) < (w : ℤ) + dx
            then v else bg) := by
  have hhd : ((List.replicate h (List.replicate w v)).headD []).length = w := by
    obtain ⟨n, rfl⟩ : ∃ n, h = n + 1 := ⟨h - 1, by omega⟩
    simp [List.replicate_succ]
  have hrect : ∀ r ∈ List.replicate h (List.replicate w v),
      r.length = ((List.replicate h (List.replicate w v)).headD []).length := by
    intro r hr
    rw [List.eq_of_mem_replicate hr, List.length_replicate, hhd]
  have hs := shift_frame_spec (List.replicate h (List.replicate w v)) dy dx bg
    hrect (by rw [List.length_replicate]; omega) (by rw [hhd]; omega)
  rw [List.length_replicate, hhd] at hs
  rw [hs]
  refine congrArg some (List.map_congr_left fun y hy => ?_)
  rw [List.mem_range] at hy
  refine List.map_congr_left fun x hx => ?_
  rw [List.mem_range] at hx
  by_cases hin : dy ≤ (y : ℤ) ∧ (y : ℤ) < (h : ℤ) + dy
      ∧ dx ≤ (x : ℤ) ∧ (x : ℤ) < (w : ℤ) + dx
  · rw [if_pos hin, if_pos hin]
    obtain ⟨h1, h2, h3, h4⟩ := hin
    rw [getD_replicate_of_lt h _ (List.replicate w v) [] (by omega),
      getD_replicate_of_lt w _ v 0 (by omega)]
  · rw [if_neg hin, if_neg hin]

/-- Witness for C6 at a concrete 3×3 uniform frame shifted by (1, -1). -/
theorem shift_uniform_frame_interior_and_border_witness :
    shift_frame (List.replicate 3 (List.replicate 3 (5 : ℚ))) 1 (-1) 7
      = some ((List.range 3).map fun (y : ℕ) =>
          (List.range 3).map fun (x : ℕ) =>
            if (1 : ℤ) ≤ (y : ℤ) ∧ (y : ℤ) < ((3 : ℕ) : ℤ) + 1
               ∧ (-1 : ℤ) ≤ (x : ℤ) ∧ (x : ℤ) < ((3 : ℕ) : ℤ) + -1
            then (5 : ℚ) else 7) := by
  exact shift_uniform_frame_interior_and_border 3 3 5 7 1 (-1) (by decide)
    (by decide) (by decide)

lemma range_map_const {α : Type} (n : ℕ) (c : α) :
    (List.range n).map (fun _ => c) = List.replicate n c := by
  rw [List.map_const', List.length_range]

/-- C10 (amended): `shift_frame` succeeds for every shift with
`|dy| ≤ height` and `|dx| ≤ width`, and every destination pixel not covered
by the translated source block equals the fill value (at `|dy| = height` or
`|dx| = width` the window is empty and the whole frame is fill); but this
precondition is not necessary: shifts with `|dy| ≥ 2·height` (and
`|dx| ≤ width`) also succeed — both slices are empty and the result is
entirely fill — while some intermediate shifts do fail with a broadcast
error, e.g. `dy = -(height+1)` for `height ≥ 2`. -/
theorem shift_frame_bounds_sufficient_not_necessary :
    (∀ (frame : Frame) (dy dx : ℤ) (fill : ℚ),
      (∀ r ∈ frame, r.length = (frame.headD []).length) →
      dy.natAbs ≤ frame.length → dx.natAbs ≤ (frame.headD []).length →
      shift_frame frame dy dx fill
        = some ((List.range frame.length).map fun (y : ℕ) =>
            (List.range (frame.headD []).length).map fun (x : ℕ) =>
              if dy ≤ (y : ℤ) ∧ (y : ℤ) < (frame.length : ℤ) + dy
                 ∧ dx ≤ (x : ℤ) ∧ (x : ℤ) < ((frame.headD []).length : ℤ) + dx
              then (frame.getD ((y : ℤ) - dy).toNat []).getD
                     ((x : ℤ) - dx).toNat 0
              else fill)) ∧
    (∀ (frame : Frame) (dy dx : ℤ) (fill : ℚ),
      2 * frame.length ≤ dy.natAbs →
      dx.natAbs ≤ (frame.headD []).length →
      shift_frame frame dy dx fill
        = some (List.replicate frame.length
            (List.replicate (frame.headD []).length fill))) ∧
    (∀ (h w : ℕ) (v fill : ℚ), 2 ≤ h → 1 ≤ w →
      shift_frame (List.replicate h (List.replicate w v)) (-((h : ℤ) + 1)) 0
        fill = none) := by
  refine ⟨fun frame dy dx fill hrect h1 h2 =>
    shift_frame_spec frame dy dx fill hrect h1 h2, ?_, ?_⟩
  · intro frame dy dx fill hdy hdx
    simp only [shift_frame, setSlice2, pyBound, List.length_replicate]
    rw [if_pos ⟨Or.inl (by omega), Or.inl (by omega)⟩]
    refine congrArg some
      (Eq.trans (List.map_congr_left fun y hy => ?_) (range_map_const _ _))
    rw [List.mem_range] at hy
    refine Eq.trans (List.map_congr_left fun x hx => ?_) (range_map_const _ _)
    rw [List.mem_range] at hx
    rw [if_neg (by omega), pix, getD_replicate_of_lt _ _ _ _ hy,
      getD_replicate_of_lt _ _ _ _ hx]
  · intro h w v fill hh hw
    obtain ⟨n, rfl⟩ : ∃ n, h = n + 2 := ⟨h - 2, by omega⟩
    have hhd : ((List.replicate (n + 2) (List.replicate w v)).headD []).length
        = w := by
      simp [List.replicate_succ]
    simp only [shift_frame, setSlice2, pyBound, List.length_replicate, hhd]
    rw [if_neg (by omega)]

/-- Witness for C10: a concrete in-range shift (dy = height = 2, whole frame
fill), a concrete far shift (dy = 2·height = 4) that succeeds with an
all-fill frame, and a concrete intermediate shift (dy = -(height+1)) that
fails. -/
theorem shift_frame_bounds_witness :
    (shift_frame [[1, 2], [3, 4]] 2 0 7
      = some ((List.range 2).map fun (y : ℕ) =>
          (List.range 2).map fun (x : ℕ) =>
            if (2 : ℤ) ≤ (y : ℤ) ∧ (y : ℤ) < ((2 : ℕ) : ℤ) + 2
               ∧ (0 : ℤ) ≤ (x : ℤ) ∧ (x : ℤ) < ((2 : ℕ) : ℤ) + 0
            then (([[1, 2], [3, 4]] : Frame).getD ((y : ℤ) - 2).toNat []).getD
                   ((x : ℤ) - 0).toNat 0
            else 7)) ∧
    (shift_frame [[1, 2], [3, 4]] 4 0 0
      = some (List.replicate 2 (List.replicate 2 (0 : ℚ)))) ∧
    shift_frame (List.replicate 2 (List.replicate 1 (5 : ℚ))) (-3) 0 3
      = none := by
  refine ⟨?_, ?_, ?_⟩
  · exact shift_frame_bounds_sufficient_not_necessary.1 [[1, 2], [3, 4]] 2 0 7
      (by decide) (by decide) (by decide)
  · exact shift_frame_bounds_sufficient_not_necessary.2.1 [[1, 2], [3, 4]] 4 0
      0 (by decide) (by decide)
  · exact shift_frame_bounds_sufficient_not_necessary.2.2 2 1 5 3 (by decide)
      (by decide)

lemma clipU8_le (q : ℚ) : clipU8 q ≤ 255 := by
  rw [clipU8]
  have h1 : max 0 (min 255 q) ≤ (255 : ℚ) :=
    max_le (by norm_num) (min_le_left _ _)
  have h2 : ¬((256 : ℤ) ≤ (max 0 (min 255 q)).floor) := by
    intro hc
    have h3 : ((256 : ℤ) : ℚ) ≤ max 0 (min 255 q) := Rat.le_floor.mp hc
    have h4 : ((256 : ℤ) : ℚ) ≤ (255 : ℚ) := le_trans h3 h1
    norm_num at h4
  omega

lemma clipVol_mem_le (v : Vol) :
    ∀ fr ∈ clipVol v, ∀ row ∈ fr, ∀ p ∈ row, p ≤ 255 := by
  intro fr hfr row hrow p hp
  rw [clipVol] at hfr
  obtain ⟨fr', -, rfl⟩ := List.mem_map.mp hfr
  obtain ⟨row', -, rfl⟩ := List.mem_map.mp hrow
  obtain ⟨q, -, rfl⟩ := List.mem_map.mp hp
  exact clipU8_le q

lemma genSim_movie_shape (num_cells num_frames height width : ℕ)
    (P : Option Mat2) (tau_decay tau_rise : ℚ) (use_ar2 : Bool)
    (cell_snr background_strength motion_smoothing max_shift noise_sigma : ℚ)
    (expf : ℚ → ℚ) (piq : ℚ) (smooth : ℚ → List ℚ → List ℚ)
    (tape : ℕ → ℚ) (fuel : ℕ) (r : GenResult)
    (h : SimCaD.generate_synthetic_calcium_movie num_cells num_frames height
      width P tau_decay tau_rise use_ar2 cell_snr background_strength
      motion_smoothing max_shift noise_sigma expf piq smooth tape fuel
      = some r) : ∃ v : Vol, r.movie = clipVol v := by
  rw [SimCaD.generate_synthetic_calcium_movie] at h
  rcases hf : footprintStageSim expf piq height width tape (2 * num_frames)
    num_cells with _ | fps
  · rw [hf] at h
    simp only [Option.bind_eq_bind, Option.none_bind] at h
    exact absurd h (by simp)
  rw [hf] at h
  simp only [Option.bind_eq_bind, Option.some_bind] at h
  rcases hs : spikeStageSim num_frames
      (P.getD ⟨98 / 100, 2 / 100, 2 / 100, 98 / 100⟩) tape fuel fps.2
      num_cells with _ | sps
  · rw [hs] at h
    simp only [Option.bind_eq_bind, Option.none_bind] at h
    exact absurd h (by simp)
  rw [hs] at h
  simp only [Option.bind_eq_bind, Option.some_bind] at h
  rcases hm : shiftStage (addScalarVol background_strength
      (compositeSim fps.1 (List.map (traceOf expf use_ar2 tau_decay tau_rise)
        sps.1) num_frames height width))
      (random_motion tape 0 num_frames max_shift motion_smoothing smooth)
      background_strength with _ | moved
  · rw [hm] at h
    simp only [Option.bind_eq_bind, Option.none_bind] at h
    exact absurd h (by simp)
  rw [hm] at h
  simp only [Option.bind_eq_bind, Option.some_bind] at h
  refine ⟨addNoiseVol moved noise_sigma tape sps.2, ?_⟩
  rw [← Option.some.inj h]

lemma genHawkes_movie_shape (num_cells num_frames height width : ℕ)
    (hawkes_mu hawkes_alpha hawkes_tau tau_decay tau_rise : ℚ)
    (use_ar2 : Bool)
    (cell_snr background_strength motion_smoothing max_shift noise_sigma : ℚ)
    (expf : ℚ → ℚ) (piq : ℚ) (smooth : ℚ → List ℚ → List ℚ)
    (tape : ℕ → ℚ) (fuel : ℕ) (r : GenResult)
    (h : SimCaDHawkes.generate_synthetic_calcium_movie num_cells num_frames
      height width hawkes_mu hawkes_alpha hawkes_tau tau_decay tau_rise
      use_ar2 cell_snr background_strength motion_smoothing max_shift
      noise_sigma expf piq smooth tape fuel
      = some r) : ∃ v : Vol, r.movie = clipVol v := by
  rw [SimCaDHawkes.generate_synthetic_calcium_movie] at h
  rcases hf : footprintStageHawkes expf piq height width tape (2 * num_frames)
    num_cells with _ | fps
  · rw [hf] at h
    simp only [Option.bind_eq_bind, Option.none_bind] at h
    exact absurd h (by simp)
  rw [hf] at h
  simp only [Option.bind_eq_bind, Option.some_bind] at h
  rcases hs : spikeStageHawkes num_frames hawkes_mu hawkes_alpha hawkes_tau
      expf tape fuel fps.2 num_cells with _ | sps
  · rw [hs] at h
    simp only [Option.bind_eq_bind, Option.none_bind] at h
    exact absurd h (by simp)
  rw [hs] at h
  simp only [Option.bind_eq_bind, Option.some_bind] at h
  rcases hm : shiftStage (addScalarVol background_strength
      (compositeHawkes fps.1
        (List.map (traceOf expf use_ar2 tau_decay tau_rise) sps.1) cell_snr
        num_frames height width))
      (random_motion tape 0 num_frames max_shift motion_smoothing smooth)
      background_strength with _ | moved
  · rw [hm] at h
    simp only [Option.bind_eq_bind, Option.none_bind] at h
    exact absurd h (by simp)
  rw [hm] at h
  simp only [Option.bind_eq_bind, Option.some_bind] at h
  refine ⟨addNoiseVol moved noise_sigma tape sps.2, ?_⟩
  rw [← Option.some.inj h]

/-- C7: on every configuration on which `generate_synthetic_calcium_movie`
returns (either variant), every pixel value of the returned Movie lies in
the closed interval [0, 255] — the final clip-and-quantize stage guarantees
the bound for arbitrary upstream values, and in this exact-arithmetic
embedding no NaN exists to escape it. -/
theorem movie_pixels_in_uint8_range :
    (∀ (num_cells num_frames height width : ℕ) (P : Option Mat2)
      (tau_decay tau_rise : ℚ) (use_ar2 : Bool)
      (cell_snr background_strength motion_smoothing max_shift noise_sigma : ℚ)
      (expf : ℚ → ℚ) (piq : ℚ) (smooth : ℚ → List ℚ → List ℚ)
      (tape : ℕ → ℚ) (fuel : ℕ) (r : GenResult),
      SimCaD.generate_synthetic_calcium_movie num_cells num_frames height
        width P tau_decay tau_rise use_ar2 cell_snr background_strength
        motion_smoothing max_shift noise_sigma expf piq smooth tape fuel
        = some r →
      ∀ fr ∈ r.movie, ∀ row ∈ fr, ∀ p ∈ row, 0 ≤ p ∧ p ≤ 255) ∧
    (∀ (num_cells num_frames height width : ℕ)
      (hawkes_mu hawkes_alpha hawkes_tau tau_decay tau_rise : ℚ)
      (use_ar2 : Bool)
      (cell_snr background_strength motion_smoothing max_shift noise_sigma : ℚ)
      (expf : ℚ → ℚ) (piq : ℚ) (smooth : ℚ → List ℚ → List ℚ)
      (tape : ℕ → ℚ) (fuel : ℕ) (r : GenResult),
      SimCaDHawkes.generate_synthetic_calcium_movie num_cells num_frames
        height width hawkes_mu hawkes_alpha hawkes_tau tau_decay tau_rise
        use_ar2 cell_snr background_strength motion_smoothing max_shift
        noise_sigma expf piq smooth tape fuel
        = some r →
      ∀ fr ∈ r.movie, ∀ row ∈ fr, ∀ p ∈ row, 0 ≤ p ∧ p ≤ 255) := by
  constructor
  · intro num_cells num_frames height width P tau_decay tau_rise use_ar2
      cell_snr background_strength motion_smoothing max_shift noise_sigma
      expf piq smooth tape fuel r h fr hfr row hrow p hp
    obtain ⟨v, hv⟩ := genSim_movie_shape num_cells num_frames height width P
      tau_decay tau_rise use_ar2 cell_snr background_strength
      motion_smoothing max_shift noise_sigma expf piq smooth tape fuel r h
    rw [hv] at hfr
    exact ⟨Nat.zero_le p, clipVol_mem_le v fr hfr row hrow p hp⟩
  · intro num_cells num_frames height width hawkes_mu hawkes_alpha hawkes_tau
      tau_decay tau_rise use_ar2 cell_snr background_strength
      motion_smoothing max_shift noise_sigma expf piq smooth tape fuel r h fr
      hfr row hrow p hp
    obtain ⟨v, hv⟩ := genHawkes_movie_shape num_cells num_frames height width
      hawkes_mu hawkes_alpha hawkes_tau tau_decay tau_rise use_ar2 cell_snr
      background_strength motion_smoothing max_shift noise_sigma expf piq
      smooth tape fuel r h
    rw [hv] at hfr
    exact ⟨Nat.zero_le p, clipVol_mem_le v fr hfr row hrow p hp⟩

/-- Witness for C7 at concrete configurations (no cells, one 1×1 frame,
background 1/2, zero noise) on which both builders return. -/
theorem movie_pixels_in_uint8_range_witness :
    (∀ fr ∈ (GenResult.movie ((SimCaD.generate_synthetic_calcium_movie 0 1 1 1
        none 1 1 true 1 (1 / 2) 1 0 0 expProxy 3 smoothId tapeZero
        1).getD ⟨[], [], [], [], []⟩)), ∀ row ∈ fr, ∀ p ∈ row,
      0 ≤ p ∧ p ≤ 255) ∧
    (∀ fr ∈ (GenResult.movie ((SimCaDHawkes.generate_synthetic_calcium_movie
        0 1 1 1 (1 / 2) 1 1 1 1 true 1 (1 / 2) 1 0 0 expProxy 3 smoothId
        tapeZero 1).getD ⟨[], [], [], [], []⟩)), ∀ row ∈ fr, ∀ p ∈ row,
      0 ≤ p ∧ p ≤ 255) :=
  ⟨movie_pixels_in_uint8_range.1 0 1 1 1 none 1 1 true 1 (1 / 2) 1 0 0
    expProxy 3 smoothId tapeZero 1 _ (by rfl),
   movie_pixels_in_uint8_range.2 0 1 1 1 (1 / 2) 1 1 1 1 true 1 (1 / 2) 1 0 0
    expProxy 3 smoothId tapeZero 1 _ (by rfl)⟩

/-- C10 counterexample: `dy = 4` exceeds the height 2 of the frame, yet the
assignment does not fail — both slices are empty and `shift_frame` succeeds,
returning the all-fill frame — refuting the claim that the `|dy| ≤ height`
precondition is necessary. -/
theorem shift_frame_beyond_bounds_succeeds :
    shift_frame [[1, 2], [3, 4]] 4 0 0 = some [[0, 0], [0, 0]] := by decide

